import Mathlib

set_option maxHeartbeats 1000000

/-! Verification development for the KNX ETS-export-to-light-configuration tools
(src/tools.py).  Python strings are modelled as lists of characters, Python
dictionaries as association lists kept in insertion order.  All definitions are
translated directly from the source file. -/

abbrev Str := List Char

/-- Python str.lstrip with default argument: drop leading whitespace. -/
def lstrip : Str → Str
  | [] => []
  | c :: cs => if c.isWhitespace then lstrip cs else c :: cs

/-- Python str.rstrip with default argument: drop trailing whitespace. -/
def rstrip (s : Str) : Str := (lstrip s.reverse).reverse

/-- Python str.strip with default argument. -/
def strip (s : Str) : Str := rstrip (lstrip s)

/-- Python str.lower, on the ASCII range actually used by the source data. -/
def toLowerStr (s : Str) : Str := s.map Char.toLower

/-- Fuel-indexed worker for replaceAll; the fuel is an upper bound on the
number of characters consumed, so that the recursion is structural. -/
def replaceAllFuel (pat new : Str) : Nat → Str → Str
  | _, [] => []
  | 0, s => s
  | fuel + 1, c :: cs =>
    if pat ≠ [] ∧ pat.isPrefixOf (c :: cs) then
      new ++ replaceAllFuel pat new fuel ((c :: cs).drop pat.length)
    else c :: replaceAllFuel pat new fuel cs

/-- Python str.replace(pat, new) for a non-empty pat: replace every
non-overlapping occurrence, scanning left to right. -/
def replaceAll (pat new s : Str) : Str := replaceAllFuel pat new s.length s

/-- Whether pat occurs as a contiguous substring. -/
def occursIn (pat : Str) : Str → Bool
  | [] => pat.isEmpty
  | c :: cs => pat.isPrefixOf (c :: cs) || occursIn pat cs

/-! ## Constants from the source (ETSCustomAddressType and KNXHAProp) -/

def ONOFF : Str := "".toList

def FEEDBACK_ONOFF : Str := "feedback".toList

def DIMVALUE : Str := "dimvalue".toList

def FEEDBACK_DIMVALUE : Str := "feedback dimvalue".toList

def DIMMER_PUSH : Str := "dimmer".toList

/-- The Home Assistant property names (values of the KNXHAProp enum). -/
inductive KNXHAProp where
  | address
  | state_address
  | brightness_address
  | brightness_state_address
  deriving DecidableEq, Repr

/-- ETS_HA_MAP from the source: ETS label prefix to HA property name. -/
def ETS_HA_MAP : List (Str × KNXHAProp) :=
  [(ONOFF, KNXHAProp.address),
   (FEEDBACK_ONOFF, KNXHAProp.state_address),
   (DIMVALUE, KNXHAProp.brightness_address),
   (FEEDBACK_DIMVALUE, KNXHAProp.brightness_state_address)]

/-- Python dict.get on ETS_HA_MAP. -/
def mapGet (k : Str) : Option KNXHAProp :=
  match ETS_HA_MAP.find? (fun p => decide (p.1 = k)) with
  | some p => some p.2
  | none => none

/-- A KNX light device record (KNXLight TypedDict): records are only ever
created as a dict holding the name, and the four address properties are
optional. -/
structure KNXLight where
  name : Str
  address : Option Str := none
  state_address : Option Str := none
  brightness_address : Option Str := none
  brightness_state_address : Option Str := none
  deriving DecidableEq, Repr

/-- KNXHeler.check_light: validity of a device record.  Python tests key
membership in the dict; here a key is present iff the field is some. -/
def check_light (d : KNXLight) : Bool :=
  d.address.isSome && d.state_address.isSome &&
    !(Bool.xor d.brightness_address.isSome d.brightness_state_address.isSome)

/-- KNXHeler.should_ignore: the label starts with the dimmer push marker. -/
def should_ignore (device_name : Str) : Bool :=
  DIMMER_PUSH.isPrefixOf device_name

/-- The nested _parse helper inside KNXHeler.parse_name: on a prefix match,
replace every occurrence of the prefix (Python str.replace), strip, and look
the prefix up in ETS_HA_MAP. -/
def parseHelper (s ty : Str) : Option (Str × Option KNXHAProp) :=
  if ty.isPrefixOf s then some (strip (replaceAll ty [] s), mapGet ty)
  else none

/-- KNXHeler.parse_name: try the prefixes in fixed precedence order, then
lower-case, strip and underscore the remaining name. -/
def parse_name (s : Str) : Str × Option KNXHAProp :=
  let tup :=
    match parseHelper s FEEDBACK_DIMVALUE with
    | some t => t
    | none =>
      match parseHelper s FEEDBACK_ONOFF with
      | some t => t
      | none =>
        match parseHelper s DIMVALUE with
        | some t => t
        | none => (s, mapGet ONOFF)
  (replaceAll [' '] ['_'] (strip (toLowerStr tup.1)), tup.2)

example : (parse_name ("Kitchen Light".toList)).1 = "kitchen_light".toList := by decide

example : (parse_name ("feedback Kitchen Light".toList)) =
    ("kitchen_light".toList, some KNXHAProp.state_address) := by decide

example : (parse_name ("feedback dimvalue Kitchen Light".toList)) =
    ("kitchen_light".toList, some KNXHAProp.brightness_state_address) := by decide

example : (parse_name ("dimvalue Kitchen Light".toList)) =
    ("kitchen_light".toList, some KNXHAProp.brightness_address) := by decide

example : (parse_name ("feedback lamp feedback".toList)).1 = "lamp".toList := by decide

/-! ## The address line parser (KNX_ADDRESS_RE) -/

/-- Result of matching KNX_ADDRESS_RE, after the slashes of groups 2 and 3
have been removed as in _parse_line: the three numeric levels and the label
(regex group 4, the rest of the line after the mandatory space). -/
structure ParsedLine where
  main : Str
  middle : Option Str
  sub : Option Str
  label : Str
  deriving DecidableEq, Repr

/-- One optional (\/\d+)? segment: a slash followed by at least one digit.
Returns the digits and the remaining input. -/
def optSeg (l : Str) : Option (Str × Str) :=
  match l with
  | '/' :: rest =>
    let digs := rest.takeWhile Char.isDigit
    if digs = [] then none else some (digs, rest.dropWhile Char.isDigit)
  | _ => none

/-- Matching against KNX_ADDRESS_RE = ^(\d+)(\/\d+)?(\/\d+)? (.*)$.
Every quantified component is followed by input it can never consume (a digit
cannot start a slash segment or the literal space), so the greedy
deterministic parse below is equivalent to the backtracking regex. -/
def matchAddr (l : Str) : Option ParsedLine :=
  let digs := l.takeWhile Char.isDigit
  let rest := l.dropWhile Char.isDigit
  if digs = [] then none
  else
    let m1 := match optSeg rest with
      | some (d, r) => (some d, r)
      | none => ((none : Option Str), rest)
    let m2 := match optSeg m1.2 with
      | some (d, r) => (some d, r)
      | none => ((none : Option Str), m1.2)
    match m2.2 with
    | ' ' :: label => some ⟨digs, m1.1, m2.1, label⟩
    | _ => none

example : matchAddr ("1/2/3 Kitchen Light".toList) =
    some ⟨"1".toList, some "2".toList, some "3".toList, "Kitchen Light".toList⟩ := by decide

example : matchAddr ("12 Hall".toList) =
    some ⟨"12".toList, none, none, "Hall".toList⟩ := by decide

example : matchAddr ("1/2 Hall".toList) =
    some ⟨"1".toList, some "2".toList, none, "Hall".toList⟩ := by decide

example : matchAddr ("not an address".toList) = none := by decide

example : matchAddr ("1/x y".toList) = none := by decide

/-! ## The project state (KNXProject.devices) and its operations -/

/-- The devices dictionary: keys in insertion order, no duplicate keys by
construction. -/
abbrev Devices := List (Str × KNXLight)

/-- Python `name in dict`. -/
def dictMem (n : Str) : Devices → Bool
  | [] => false
  | (k, _) :: rest => if n = k then true else dictMem n rest

/-- Python `dict[name]` as an Option. -/
def lookupDev : Devices → Str → Option KNXLight
  | [], _ => none
  | (k, d) :: rest, n => if n = k then some d else lookupDev rest n

/-- In-place mutation of the record stored under a key (Python
`device = dict[name]; device[prop] = value` keeps the key position). -/
def updateDev (devs : Devices) (n : Str) (f : KNXLight → KNXLight) : Devices :=
  devs.map (fun p => if p.1 = n then (p.1, f p.2) else p)

/-- Python `del dict[name]`. -/
def delKey (devs : Devices) (n : Str) : Devices :=
  devs.filter (fun p => decide (p.1 ≠ n))

/-- Python `device[device_prop] = full_address`. -/
def setProp (d : KNXLight) : KNXHAProp → Str → KNXLight
  | KNXHAProp.address, v => { d with address := some v }
  | KNXHAProp.state_address, v => { d with state_address := some v }
  | KNXHAProp.brightness_address, v => { d with brightness_address := some v }
  | KNXHAProp.brightness_state_address, v => { d with brightness_state_address := some v }

/-- Reading a property back out of a record. -/
def getProp (d : KNXLight) : KNXHAProp → Option Str
  | KNXHAProp.address => d.address
  | KNXHAProp.state_address => d.state_address
  | KNXHAProp.brightness_address => d.brightness_address
  | KNXHAProp.brightness_state_address => d.brightness_state_address

/-- The fresh record `{"name": device_name}` created on first sight. -/
def mkDevice (n : Str) : KNXLight := ⟨n, none, none, none, none⟩

/-- One classified line: derived device name, target property, and the full
address string. -/
structure Triple where
  dn : Str
  dp : KNXHAProp
  addr : Str
  deriving DecidableEq, Repr

/-- The aggregation step at the end of _parse_line: create the record on
first sight of the name, then set the targeted property. -/
def addTriple (devs : Devices) (t : Triple) : Devices :=
  let devs1 := if dictMem t.dn devs then devs else devs ++ [(t.dn, mkDevice t.dn)]
  updateDev devs1 t.dn (fun d => setProp d t.dp t.addr)

/-- Which diagnostic branch of _parse_line a given line falls into (each
non-processed branch prints a report line and returns). -/
inductive Report where
  | malformed
  | ignored
  | mainGroupHeader
  | middleGroupHeader
  | noProp
  | processed
  deriving DecidableEq, Repr

/-- The branch structure of KNXProject._parse_line, in source order: either
the diagnostic taken on an early return (each prints a report line and leaves
the mapping untouched), or the classified triple handed to aggregation. -/
def classifyLine (l : Str) : Report ⊕ Triple :=
  match matchAddr l with
  | none => Sum.inl Report.malformed
  | some pl =>
    if should_ignore pl.label then Sum.inl Report.ignored
    else
      match pl.middle with
      | none => Sum.inl Report.mainGroupHeader
      | some mid =>
        match pl.sub with
        | none => Sum.inl Report.middleGroupHeader
        | some sub =>
          match parse_name pl.label with
          | (_, none) => Sum.inl Report.noProp
          | (dn, some dp) => Sum.inr ⟨dn, dp, pl.main ++ '/' :: mid ++ '/' :: sub⟩

/-- KNXProject._parse_line as a pure state transformer, paired with the
diagnostic branch taken. -/
def _parse_line (devs : Devices) (l : Str) : Devices × Report :=
  match classifyLine l with
  | Sum.inl r => (devs, r)
  | Sum.inr t => (addTriple devs t, Report.processed)

/-- The classification a line receives on the aggregation path of
_parse_line, when it reaches it (a valid leaf line). -/
def classify (l : Str) : Option Triple :=
  match classifyLine l with
  | Sum.inl _ => none
  | Sum.inr t => some t

/-- The line-processing loop of load_from_ets, starting from the empty
project. -/
def processLines (ls : List Str) : Devices :=
  ls.foldl (fun devs l => (_parse_line devs l).1) []

/-- The multiset of triples a list of lines classifies to. -/
def tripleList (ls : List Str) : List Triple := ls.filterMap classify

/-- KNXProject.remove_invalid_devices: collect the invalid records in
iteration order, delete each by its stored name, return the removed list. -/
def remove_invalid_devices (devs : Devices) : Devices × List KNXLight :=
  let invalid := (devs.filter (fun p => !check_light p.2)).map (fun p => p.2)
  (invalid.foldl (fun acc inv => delKey acc inv.name) devs, invalid)

example :
    processLines ["1/2/3 Kitchen Light".toList, "1/2/4 feedback Kitchen Light".toList] =
      [("kitchen_light".toList,
        ⟨"kitchen_light".toList, some "1/2/3".toList, some "1/2/4".toList, none, none⟩)] := by
  decide

example :
    (_parse_line [] ("1/2/5 dimmer Kitchen".toList)).2 = Report.ignored := by decide

/-! ## The serializer (KNXProject.to_yaml) -/

/-- Python string comparison: lexicographic by code point, a proper initial
segment is smaller. -/
def strLe : Str → Str → Bool
  | [], _ => true
  | _ :: _, [] => false
  | a :: as, b :: bs => if a < b then true else if b < a then false else strLe as bs

/-- Strict version of strLe. -/
def strLt : Str → Str → Bool
  | [], [] => false
  | [], _ :: _ => true
  | _ :: _, [] => false
  | a :: as, b :: bs => if a < b then true else if b < a then false else strLt as bs

def strLeP (a b : Str) : Prop := strLe a b = true

def strLtP (a b : Str) : Prop := strLt a b = true

instance : DecidableRel strLeP := fun a b => instDecidableEqBool (strLe a b) true

instance : DecidableRel strLtP := fun a b => instDecidableEqBool (strLt a b) true

/-- Python sorted(list(dict.keys())): on the duplicate-free key list any
comparison sort returns the unique ordered permutation. -/
def sortedNames (devs : Devices) : List Str :=
  List.insertionSort strLeP (devs.map (fun p => p.1))

/-- The record list [self.devices[n] for n in device_names]. -/
def to_yaml_records (devs : Devices) : List KNXLight :=
  (sortedNames devs).filterMap (fun n => lookupDev devs n)

/-- A YAML value: scalar, sequence, or mapping. -/
inductive YVal where
  | str : Str → YVal
  | arr : List YVal → YVal
  | obj : List (Str × YVal) → YVal

/-- One optional dict entry: present exactly when the property is set. -/
def optField (k : Str) (v : Option Str) : List (Str × Str) :=
  match v with
  | some s => [(k, s)]
  | none => []

/-- The key/value pairs yaml.dump emits for one record, in its default
alphabetical key order; absent properties produce no pair at all. -/
def emitDevice (d : KNXLight) : List (Str × Str) :=
  optField ("address".toList) d.address
    ++ optField ("brightness_address".toList) d.brightness_address
    ++ optField ("brightness_state_address".toList) d.brightness_state_address
    ++ [("name".toList, d.name)]
    ++ optField ("state_address".toList) d.state_address

/-- KNXProject.to_yaml: the structured document that is dumped, with the
sorted record list under the devices_type key, optionally nested under the
root key. -/
def to_yaml (devs : Devices) (devices_type : Str) (root : Option Str) : YVal :=
  let d := YVal.obj
    [(devices_type,
      YVal.arr ((to_yaml_records devs).map
        (fun r => YVal.obj ((emitDevice r).map (fun p => (p.1, YVal.str p.2))))))]
  match root with
  | some r => YVal.obj [(r, d)]
  | none => d

/-! ## Invariants of the device dictionary -/

/-- Every stored record carries its own key in its name field. -/
abbrev nameInv (devs : Devices) : Prop := ∀ p ∈ devs, p.2.name = p.1

/-- The dictionary has pairwise distinct keys. -/
abbrev keysNodup (devs : Devices) : Prop := (devs.map (fun p => p.1)).Nodup

/-! ## Dictionary lemmas -/

theorem lookupDev_cons (k : Str) (d : KNXLight) (rest : Devices) (m : Str) :
    lookupDev ((k, d) :: rest) m = if m = k then some d else lookupDev rest m := rfl

theorem dictMem_cons (k : Str) (d : KNXLight) (rest : Devices) (n : Str) :
    dictMem n ((k, d) :: rest) = if n = k then true else dictMem n rest := rfl

theorem updateDev_cons (k : Str) (d : KNXLight) (rest : Devices) (n : Str)
    (f : KNXLight → KNXLight) :
    updateDev ((k, d) :: rest) n f =
      (if k = n then (k, f d) else (k, d)) :: updateDev rest n f := by
  by_cases h : k = n <;> simp [updateDev, h]

theorem dictMem_eq_isSome (devs : Devices) (n : Str) :
    dictMem n devs = (lookupDev devs n).isSome := by
  induction devs with
  | nil => rfl
  | cons p rest ih =>
    obtain ⟨k, d⟩ := p
    by_cases h : n = k <;> simp [dictMem_cons, lookupDev_cons, h, ih]

theorem lookup_updateDev (devs : Devices) (n m : Str) (f : KNXLight → KNXLight) :
    lookupDev (updateDev devs n f) m =
      if m = n then (lookupDev devs n).map f else lookupDev devs m := by
  induction devs with
  | nil => simp [updateDev, lookupDev]
  | cons p rest ih =>
    obtain ⟨k, d⟩ := p
    by_cases hkn : k = n
    · subst hkn
      by_cases hmk : m = k <;> simp [updateDev_cons, lookupDev_cons, hmk, ih]
    · by_cases hmk : m = k
      · have hmn : m ≠ n := fun h => hkn (hmk.symm.trans h)
        simp [updateDev_cons, lookupDev_cons, hkn, hmk, hmn]
      · have hnk : ¬n = k := fun h => hkn h.symm
        simp [updateDev_cons, lookupDev_cons, hkn, hmk, hnk, ih]

theorem lookup_append_one (devs : Devices) (k : Str) (d : KNXLight) (m : Str) :
    lookupDev (devs ++ [(k, d)]) m =
      match lookupDev devs m with
      | some x => some x
      | none => if m = k then some d else none := by
  induction devs with
  | nil => simp [lookupDev, lookupDev_cons]
  | cons p rest ih =>
    obtain ⟨k2, d2⟩ := p
    by_cases h : m = k2 <;> simp [List.cons_append, lookupDev_cons, h, ih]

theorem lookup_mem (devs : Devices) (n : Str) (d : KNXLight)
    (h : lookupDev devs n = some d) : (n, d) ∈ devs := by
  induction devs with
  | nil => exact absurd h (by simp [lookupDev])
  | cons p rest ih =>
    obtain ⟨k, d2⟩ := p
    rw [lookupDev_cons] at h
    by_cases hk : n = k
    · rw [if_pos hk] at h
      obtain rfl : d2 = d := Option.some.inj h
      subst hk
      exact List.mem_cons_self _ _
    · rw [if_neg hk] at h
      exact List.mem_cons_of_mem _ (ih h)

theorem lookup_isSome_of_mem_keys (devs : Devices) (n : Str)
    (h : n ∈ devs.map (fun p => p.1)) : (lookupDev devs n).isSome = true := by
  induction devs with
  | nil => simp at h
  | cons p rest ih =>
    obtain ⟨k, d⟩ := p
    rw [lookupDev_cons]
    by_cases hk : n = k
    · rw [if_pos hk]; rfl
    · rw [if_neg hk]
      apply ih
      simp only [List.map_cons, List.mem_cons] at h
      rcases h with h | h
      · exact absurd h hk
      · exact h

theorem lookup_name (devs : Devices) (hinv : nameInv devs) (n : Str) (d : KNXLight)
    (h : lookupDev devs n = some d) : d.name = n :=
  hinv (n, d) (lookup_mem devs n d h)

theorem lookup_addTriple (devs : Devices) (t : Triple) (m : Str) :
    lookupDev (addTriple devs t) m =
      if m = t.dn then
        some (setProp ((lookupDev devs t.dn).getD (mkDevice t.dn)) t.dp t.addr)
      else lookupDev devs m := by
  unfold addTriple
  by_cases hmem : dictMem t.dn devs = true
  · rw [if_pos hmem, lookup_updateDev]
    have hs : (lookupDev devs t.dn).isSome = true := by
      rw [← dictMem_eq_isSome]; exact hmem
    obtain ⟨d, hd⟩ := Option.isSome_iff_exists.mp hs
    by_cases hm : m = t.dn
    · rw [if_pos hm, if_pos hm, hd]; rfl
    · rw [if_neg hm, if_neg hm]
  · rw [if_neg hmem, lookup_updateDev]
    have hnone : lookupDev devs t.dn = none := by
      cases ho : lookupDev devs t.dn with
      | none => rfl
      | some d => rw [dictMem_eq_isSome, ho] at hmem; simp at hmem
    by_cases hm : m = t.dn
    · subst hm
      rw [if_pos rfl, if_pos rfl, lookup_append_one, hnone]
      simp
    · rw [if_neg hm, if_neg hm, lookup_append_one]
      cases ho : lookupDev devs m with
      | none => simp [ho, if_neg hm]
      | some x => simp [ho]

/-! ## The classifier always yields a property -/

theorem parse_name_snd (s : Str) :
    (parse_name s).2 =
      some (if FEEDBACK_DIMVALUE.isPrefixOf s then KNXHAProp.brightness_state_address
        else if FEEDBACK_ONOFF.isPrefixOf s then KNXHAProp.state_address
        else if DIMVALUE.isPrefixOf s then KNXHAProp.brightness_address
        else KNXHAProp.address) := by
  have h1 : mapGet FEEDBACK_DIMVALUE = some KNXHAProp.brightness_state_address := by decide
  have h2 : mapGet FEEDBACK_ONOFF = some KNXHAProp.state_address := by decide
  have h3 : mapGet DIMVALUE = some KNXHAProp.brightness_address := by decide
  have h4 : mapGet ONOFF = some KNXHAProp.address := by decide
  unfold parse_name parseHelper
  cases ha : FEEDBACK_DIMVALUE.isPrefixOf s with
  | true => simp [ha, h1]
  | false =>
    cases hb : FEEDBACK_ONOFF.isPrefixOf s with
    | true => simp [ha, hb, h2]
    | false =>
      cases hc : DIMVALUE.isPrefixOf s with
      | true => simp [ha, hb, hc, h3]
      | false => simp [ha, hb, hc, h4]

/-! ## Properties of setProp, getProp, and the aggregation step -/

theorem getProp_setProp (d : KNXLight) (p q : KNXHAProp) (v : Str) :
    getProp (setProp d p v) q = if q = p then some v else getProp d q := by
  cases p <;> cases q <;> simp [setProp, getProp]

theorem setProp_name (d : KNXLight) (p : KNXHAProp) (v : Str) :
    (setProp d p v).name = d.name := by
  cases p <;> rfl

theorem classifyLine_of_classify (l : Str) (t : Triple) (h : classify l = some t) :
    classifyLine l = Sum.inr t := by
  unfold classify at h
  cases hc : classifyLine l with
  | inl r => rw [hc] at h; exact absurd h (by simp)
  | inr t2 => rw [hc] at h; rw [Option.some.inj h]

theorem parse_line_of_classify (devs : Devices) (l : Str) (t : Triple)
    (h : classify l = some t) :
    _parse_line devs l = (addTriple devs t, Report.processed) := by
  unfold _parse_line
  rw [classifyLine_of_classify l t h]

theorem parse_line_of_not_classify (devs : Devices) (l : Str) (r : Report)
    (h : classifyLine l = Sum.inl r) :
    _parse_line devs l = (devs, r) := by
  unfold _parse_line
  rw [h]

/-! ## Characterising aggregation by per-key filtered subsequences -/

/-- Whether a triple targets the given (device name, property) pair. -/
def tKey (n : Str) (p : KNXHAProp) (t : Triple) : Bool :=
  decide (t.dn = n ∧ t.dp = p)

/-- The last address written to a given (device name, property) pair by a
triple sequence. -/
def lastAddr (ts : List Triple) (n : Str) (p : KNXHAProp) : Option Str :=
  ((ts.filter (tKey n p)).map Triple.addr).getLast?

/-- Whether any triple targets the given device name. -/
def hasName (n : Str) (ts : List Triple) : Bool :=
  ts.any (fun t => decide (t.dn = n))

/-- The record a triple sequence builds for a given device name. -/
def recordOf (ts : List Triple) (n : Str) : KNXLight :=
  ⟨n, lastAddr ts n KNXHAProp.address,
      lastAddr ts n KNXHAProp.state_address,
      lastAddr ts n KNXHAProp.brightness_address,
      lastAddr ts n KNXHAProp.brightness_state_address⟩

/-- Folding the aggregation step over a triple list, starting empty. -/
def aggregate (ts : List Triple) : Devices := ts.foldl addTriple []

theorem getLast?_append_single (l : List Str) (a : Str) :
    (l ++ [a]).getLast? = some a := by
  induction l with
  | nil => rfl
  | cons b rest ih =>
    cases rest with
    | nil => rfl
    | cons c rest2 =>
      rw [List.cons_append, List.cons_append, List.getLast?_cons_cons]
      rw [List.cons_append] at ih
      exact ih

theorem lastAddr_append_one (ts : List Triple) (t : Triple) (n : Str) (p : KNXHAProp) :
    lastAddr (ts ++ [t]) n p =
      if t.dn = n ∧ t.dp = p then some t.addr else lastAddr ts n p := by
  unfold lastAddr
  rw [List.filter_append]
  by_cases h : t.dn = n ∧ t.dp = p
  · rw [if_pos h]
    have : List.filter (tKey n p) [t] = [t] := by
      simp [List.filter, tKey, h]
    rw [this, List.map_append]
    exact getLast?_append_single _ _
  · rw [if_neg h]
    have : List.filter (tKey n p) [t] = [] := by
      simp [List.filter, tKey, h]
    rw [this, List.append_nil]

theorem lastAddr_of_not_hasName (ts : List Triple) (n : Str) (p : KNXHAProp)
    (h : hasName n ts = false) : lastAddr ts n p = none := by
  unfold lastAddr
  have hf : ts.filter (tKey n p) = [] := by
    rw [List.filter_eq_nil_iff]
    intro t ht hk
    have hdn : t.dn = n := (of_decide_eq_true hk).1
    have : ts.any (fun t => decide (t.dn = n)) = true :=
      List.any_eq_true.mpr ⟨t, ht, decide_eq_true hdn⟩
    rw [hasName] at h
    rw [h] at this
    exact Bool.false_ne_true this
  rw [hf]
  rfl

theorem recordOf_of_not_hasName (ts : List Triple) (n : Str)
    (h : hasName n ts = false) : recordOf ts n = mkDevice n := by
  unfold recordOf mkDevice
  rw [lastAddr_of_not_hasName ts n _ h, lastAddr_of_not_hasName ts n _ h,
    lastAddr_of_not_hasName ts n _ h, lastAddr_of_not_hasName ts n _ h]

theorem recordOf_append_one (ts : List Triple) (t : Triple) (n : Str) (h : t.dn = n) :
    recordOf (ts ++ [t]) n = setProp (recordOf ts n) t.dp t.addr := by
  cases hp : t.dp <;>
    simp [recordOf, setProp, lastAddr_append_one, h, hp]

theorem recordOf_append_one_ne (ts : List Triple) (t : Triple) (n : Str) (h : ¬t.dn = n) :
    recordOf (ts ++ [t]) n = recordOf ts n := by
  unfold recordOf
  rw [lastAddr_append_one, lastAddr_append_one, lastAddr_append_one, lastAddr_append_one]
  simp [h]

theorem hasName_append_one (ts : List Triple) (t : Triple) (n : Str) :
    hasName n (ts ++ [t]) = (hasName n ts || decide (t.dn = n)) := by
  unfold hasName
  rw [List.any_append]
  simp

/-- The central characterisation: looking a name up in the aggregate of a
triple sequence yields exactly the record determined by the per-property
last-written addresses. -/
theorem lookup_aggregate (ts : List Triple) (n : Str) :
    lookupDev (aggregate ts) n =
      if hasName n ts then some (recordOf ts n) else none := by
  induction ts using List.reverseRecOn with
  | nil => rfl
  | append_singleton l t ih =>
    have hagg : aggregate (l ++ [t]) = addTriple (aggregate l) t := by
      unfold aggregate
      rw [List.foldl_append]
      rfl
    rw [hagg, lookup_addTriple]
    by_cases hm : n = t.dn
    · rw [if_pos hm, ← hm, ih]
      have hdn : t.dn = n := hm.symm
      cases hl : hasName n l with
      | false =>
        rw [if_neg (by simp [hl])]
        have h1 : hasName n (l ++ [t]) = true := by
          rw [hasName_append_one, hl]
          simp [hdn]
        rw [if_pos (by simp [h1])]
        rw [recordOf_append_one l t n hdn, recordOf_of_not_hasName l n hl]
        rfl
      | true =>
        rw [if_pos (by simp [hl])]
        have h1 : hasName n (l ++ [t]) = true := by
          rw [hasName_append_one, hl]
          simp
        rw [if_pos (by simp [h1])]
        rw [recordOf_append_one l t n hdn]
        rfl
    · rw [if_neg hm, ih]
      have hdn : ¬t.dn = n := fun h => hm h.symm
      have h1 : hasName n (l ++ [t]) = hasName n l := by
        rw [hasName_append_one]
        simp [hdn]
      rw [h1, recordOf_append_one_ne l t n hdn]

theorem foldl_parse_eq : ∀ (ls : List Str) (devs : Devices),
    (∀ l ∈ ls, (classify l).isSome = true) →
    ls.foldl (fun d l => (_parse_line d l).1) devs =
      (ls.filterMap classify).foldl addTriple devs := by
  intro ls
  induction ls with
  | nil => intro devs hv; rfl
  | cons l rest ih =>
    intro devs hv
    have hl : (classify l).isSome = true := hv l (List.mem_cons_self _ _)
    obtain ⟨t, ht⟩ := Option.isSome_iff_exists.mp hl
    have hstep : (_parse_line devs l).1 = addTriple devs t := by
      rw [parse_line_of_classify devs l t ht]
    rw [List.foldl_cons, hstep]
    simp only [List.filterMap_cons, ht, List.foldl_cons]
    exact ih (addTriple devs t) (fun x hx => hv x (List.mem_cons_of_mem _ hx))

theorem hasName_true_iff (ts : List Triple) (n : Str) :
    hasName n ts = true ↔ ∃ t ∈ ts, t.dn = n := by
  unfold hasName
  rw [List.any_eq_true]
  constructor
  · rintro ⟨t, ht, hd⟩
    exact ⟨t, ht, of_decide_eq_true hd⟩
  · rintro ⟨t, ht, hd⟩
    exact ⟨t, ht, decide_eq_true hd⟩

theorem hasName_eq_of_filter_eq (ts1 ts2 : List Triple) (n : Str)
    (h : ∀ p, ts1.filter (tKey n p) = ts2.filter (tKey n p)) :
    hasName n ts1 = hasName n ts2 := by
  have key : ∀ (a b : List Triple), (∀ p, a.filter (tKey n p) = b.filter (tKey n p)) →
      hasName n a = true → hasName n b = true := by
    intro a b hab ha
    obtain ⟨t, ht, hd⟩ := (hasName_true_iff a n).mp ha
    have htf : t ∈ a.filter (tKey n t.dp) := by
      rw [List.mem_filter]
      exact ⟨ht, decide_eq_true ⟨hd, rfl⟩⟩
    rw [hab t.dp] at htf
    exact (hasName_true_iff b n).mpr ⟨t, (List.mem_filter.mp htf).1, hd⟩
  cases h1 : hasName n ts1 with
  | true => exact (key ts1 ts2 h h1).symm
  | false =>
    cases h2 : hasName n ts2 with
    | false => rfl
    | true =>
      have := key ts2 ts1 (fun p => (h p).symm) h2
      rw [h1] at this
      exact absurd this Bool.false_ne_true

theorem recordOf_eq_of_filter_eq (ts1 ts2 : List Triple) (n : Str)
    (h : ∀ p, ts1.filter (tKey n p) = ts2.filter (tKey n p)) :
    recordOf ts1 n = recordOf ts2 n := by
  have hla : ∀ p, lastAddr ts1 n p = lastAddr ts2 n p := by
    intro p
    unfold lastAddr
    rw [h p]
  unfold recordOf
  rw [hla, hla, hla, hla]

/-- C4: processing two sequences of valid leaf lines that agree, line for
line, on every (device name, property) pair — i.e. one is a reordering of
the other preserving the relative order of same-key lines — produces
extensionally equal device mappings: across distinct properties the result
is an order-independent union, for a single property the last line wins. -/
theorem knx_C4 (ls1 ls2 : List Str) (n : Str)
    (hv1 : ∀ l ∈ ls1, (classify l).isSome = true)
    (hv2 : ∀ l ∈ ls2, (classify l).isSome = true)
    (hperm : ls1.Perm ls2)
    (hkey : ∀ m p, (tripleList ls1).filter (tKey m p) =
      (tripleList ls2).filter (tKey m p)) :
    lookupDev (processLines ls1) n = lookupDev (processLines ls2) n := by
  unfold processLines
  rw [foldl_parse_eq ls1 [] hv1, foldl_parse_eq ls2 [] hv2]
  show lookupDev (aggregate (tripleList ls1)) n
    = lookupDev (aggregate (tripleList ls2)) n
  rw [lookup_aggregate, lookup_aggregate,
    hasName_eq_of_filter_eq _ _ n (fun p => hkey n p),
    recordOf_eq_of_filter_eq _ _ n (fun p => hkey n p)]

theorem knx_C4_witness :
    lookupDev (processLines
        ["1/2/3 Kitchen Light".toList, "1/2/4 feedback Kitchen Light".toList])
      ("kitchen_light".toList) =
    lookupDev (processLines
        ["1/2/4 feedback Kitchen Light".toList, "1/2/3 Kitchen Light".toList])
      ("kitchen_light".toList) := by
  apply knx_C4 _ _ _ (by decide) (by decide) (List.Perm.swap _ _ _)
  intro m p
  have e1 : tripleList
      ["1/2/3 Kitchen Light".toList, "1/2/4 feedback Kitchen Light".toList] =
      [⟨"kitchen_light".toList, KNXHAProp.address, "1/2/3".toList⟩,
       ⟨"kitchen_light".toList, KNXHAProp.state_address, "1/2/4".toList⟩] := by decide
  have e2 : tripleList
      ["1/2/4 feedback Kitchen Light".toList, "1/2/3 Kitchen Light".toList] =
      [⟨"kitchen_light".toList, KNXHAProp.state_address, "1/2/4".toList⟩,
       ⟨"kitchen_light".toList, KNXHAProp.address, "1/2/3".toList⟩] := by decide
  rw [e1, e2]
  cases h1 : tKey m p ⟨"kitchen_light".toList, KNXHAProp.address, "1/2/3".toList⟩ with
  | false =>
    cases h2 : tKey m p ⟨"kitchen_light".toList, KNXHAProp.state_address, "1/2/4".toList⟩ with
    | false =>
      simp only [List.filter_cons, h1, h2]
      simp
    | true =>
      simp only [List.filter_cons, h1, h2]
      simp
  | true =>
    cases h2 : tKey m p ⟨"kitchen_light".toList, KNXHAProp.state_address, "1/2/4".toList⟩ with
    | false =>
      simp only [List.filter_cons, h1, h2]
      simp
    | true =>
      have p1 : KNXHAProp.address = p := (of_decide_eq_true h1).2
      have p2 : KNXHAProp.state_address = p := (of_decide_eq_true h2).2
      exact absurd (p1.trans p2.symm) (by decide)

/-- C2: check_light returns true exactly when address and state_address are
both set and the two brightness properties are both set or both absent. -/
theorem knx_C2 (d : KNXLight) :
    check_light d = true ↔
      (d.address.isSome = true ∧ d.state_address.isSome = true ∧
        (d.brightness_address.isSome = true ↔ d.brightness_state_address.isSome = true)) := by
  obtain ⟨nm, a, sa, ba, bsa⟩ := d
  cases a <;> cases sa <;> cases ba <;> cases bsa <;> simp [check_light]

/-- C5: for a non-ignored label the prefixes are tested in the fixed order
feedback-dimvalue, feedback, dimvalue, then the always-matching empty prefix,
and the first match determines the property via the ETS_HA_MAP table. -/
theorem knx_C5 (s : Str) (hig : should_ignore s = false) :
    (parse_name s).2 =
        some (if FEEDBACK_DIMVALUE.isPrefixOf s then KNXHAProp.brightness_state_address
          else if FEEDBACK_ONOFF.isPrefixOf s then KNXHAProp.state_address
          else if DIMVALUE.isPrefixOf s then KNXHAProp.brightness_address
          else KNXHAProp.address)
      ∧ mapGet FEEDBACK_DIMVALUE = some KNXHAProp.brightness_state_address
      ∧ mapGet FEEDBACK_ONOFF = some KNXHAProp.state_address
      ∧ mapGet DIMVALUE = some KNXHAProp.brightness_address
      ∧ mapGet ONOFF = some KNXHAProp.address :=
  ⟨parse_name_snd s, by decide, by decide, by decide, by decide⟩

theorem knx_C5_witness :
    (parse_name ("feedback Kitchen".toList)).2 =
        some (if FEEDBACK_DIMVALUE.isPrefixOf ("feedback Kitchen".toList) then
            KNXHAProp.brightness_state_address
          else if FEEDBACK_ONOFF.isPrefixOf ("feedback Kitchen".toList) then
            KNXHAProp.state_address
          else if DIMVALUE.isPrefixOf ("feedback Kitchen".toList) then
            KNXHAProp.brightness_address
          else KNXHAProp.address)
      ∧ mapGet FEEDBACK_DIMVALUE = some KNXHAProp.brightness_state_address
      ∧ mapGet FEEDBACK_ONOFF = some KNXHAProp.state_address
      ∧ mapGet DIMVALUE = some KNXHAProp.brightness_address
      ∧ mapGet ONOFF = some KNXHAProp.address :=
  knx_C5 ("feedback Kitchen".toList) (by decide)

theorem classifyLine_ne_noProp (l : Str) : classifyLine l ≠ Sum.inl Report.noProp := by
  unfold classifyLine
  cases hm : matchAddr l with
  | none => simp
  | some pl =>
    cases hig : should_ignore pl.label with
    | true => simp [hig]
    | false =>
      simp only [hig, Bool.false_eq_true, if_false]
      cases pl.middle with
      | none => simp
      | some mid =>
        cases pl.sub with
        | none => simp
        | some sub =>
          have hs := parse_name_snd pl.label
          cases hpn : parse_name pl.label with
          | mk dn dpo =>
            rw [hpn] at hs
            cases dpo with
            | none => exact absurd hs (by simp)
            | some dp => simp

/-- C9: parse_name never returns a missing property (the empty-prefix
fallback always yields the address property), so the unable-to-extract
branch of _parse_line is unreachable for every input line. -/
theorem knx_C9 (s : Str) (devs : Devices) (l : Str) :
    (parse_name s).2.isSome = true ∧ (_parse_line devs l).2 ≠ Report.noProp := by
  constructor
  · rw [parse_name_snd]; rfl
  · unfold _parse_line
    cases hc : classifyLine l with
    | inl r =>
      have hr : r ≠ Report.noProp := by
        intro h
        exact classifyLine_ne_noProp l (h ▸ hc)
      simpa using hr
    | inr t => simp


/-- C6: processing a classified leaf line writes the targeted property of the
targeted record (overwriting any previous value of that single property, and
setting the name on first sight) and changes no other record and no other
property. -/
theorem knx_C6 (devs : Devices) (l : Str) (t : Triple) (m : Str) (q : KNXHAProp)
    (d : KNXLight) (h : classify l = some t) (hm : m ≠ t.dn) (hq : q ≠ t.dp) :
    lookupDev (_parse_line devs l).1 t.dn =
        some (setProp ((lookupDev devs t.dn).getD (mkDevice t.dn)) t.dp t.addr)
      ∧ lookupDev (_parse_line devs l).1 m = lookupDev devs m
      ∧ (setProp d t.dp t.addr).name = d.name
      ∧ getProp (setProp d t.dp t.addr) t.dp = some t.addr
      ∧ getProp (setProp d t.dp t.addr) q = getProp d q
      ∧ (mkDevice t.dn).name = t.dn := by
  have hp := parse_line_of_classify devs l t h
  refine ⟨?_, ?_, setProp_name d t.dp t.addr, ?_, ?_, rfl⟩
  · rw [hp]
    show lookupDev (addTriple devs t) t.dn = _
    rw [lookup_addTriple, if_pos rfl]
  · rw [hp]
    show lookupDev (addTriple devs t) m = _
    rw [lookup_addTriple, if_neg hm]
  · rw [getProp_setProp, if_pos rfl]
  · rw [getProp_setProp, if_neg hq]

theorem knx_C6_witness :
    lookupDev (_parse_line [("other".toList, mkDevice ("other".toList))]
        ("1/2/4 feedback Kitchen Light".toList)).1 ("kitchen_light".toList) =
        some (setProp ((lookupDev [("other".toList, mkDevice ("other".toList))]
            ("kitchen_light".toList)).getD (mkDevice ("kitchen_light".toList)))
          KNXHAProp.state_address ("1/2/4".toList))
      ∧ lookupDev (_parse_line [("other".toList, mkDevice ("other".toList))]
          ("1/2/4 feedback Kitchen Light".toList)).1 ("other".toList) =
        lookupDev [("other".toList, mkDevice ("other".toList))] ("other".toList)
      ∧ (setProp (mkDevice ("x".toList)) KNXHAProp.state_address ("1/2/4".toList)).name =
        (mkDevice ("x".toList)).name
      ∧ getProp (setProp (mkDevice ("x".toList)) KNXHAProp.state_address ("1/2/4".toList))
          KNXHAProp.state_address = some ("1/2/4".toList)
      ∧ getProp (setProp (mkDevice ("x".toList)) KNXHAProp.state_address ("1/2/4".toList))
          KNXHAProp.address = getProp (mkDevice ("x".toList)) KNXHAProp.address
      ∧ (mkDevice ("kitchen_light".toList)).name = "kitchen_light".toList :=
  knx_C6 [("other".toList, mkDevice ("other".toList))]
    ("1/2/4 feedback Kitchen Light".toList)
    ⟨"kitchen_light".toList, KNXHAProp.state_address, "1/2/4".toList⟩
    ("other".toList) KNXHAProp.address (mkDevice ("x".toList))
    (by decide) (by decide) (by decide)

/-- C7: a line that fails the address grammar, and a parsed line missing the
middle or the subgroup level (a group or middle-group header), is reported
and skipped: the device mapping is returned unchanged (no exception is
modelled because every branch returns normally) and the processed branch is
not taken, so the pipeline continues with the next line. -/
theorem knx_C7 (devs : Devices) (l : Str)
    (h : matchAddr l = none ∨
      ∃ pl, matchAddr l = some pl ∧ (pl.middle = none ∨ pl.sub = none)) :
    (_parse_line devs l).1 = devs ∧ (_parse_line devs l).2 ≠ Report.processed := by
  have key : ∃ r, classifyLine l = Sum.inl r ∧ r ≠ Report.processed := by
    rcases h with h | ⟨pl, hpl, hmid⟩
    · refine ⟨Report.malformed, ?_, by decide⟩
      unfold classifyLine
      rw [h]
    · unfold classifyLine
      rw [hpl]
      cases hig : should_ignore pl.label with
      | true => exact ⟨Report.ignored, by simp [hig], by decide⟩
      | false =>
        rcases hmid with hmid | hsub
        · exact ⟨Report.mainGroupHeader, by simp [hig, hmid], by decide⟩
        · cases hmidv : pl.middle with
          | none => exact ⟨Report.mainGroupHeader, by simp [hig, hmidv], by decide⟩
          | some mid =>
            exact ⟨Report.middleGroupHeader, by simp [hig, hmidv, hsub], by decide⟩
  obtain ⟨r, hr, hrp⟩ := key
  rw [parse_line_of_not_classify devs l r hr]
  exact ⟨rfl, hrp⟩

theorem knx_C7_witness :
    (_parse_line [] ("not an address".toList)).1 = []
      ∧ (_parse_line [] ("not an address".toList)).2 ≠ Report.processed :=
  knx_C7 [] ("not an address".toList) (Or.inl (by decide))

/-! ## Name-invariant preservation (C10) -/

theorem nameInv_addTriple (devs : Devices) (t : Triple) (h : nameInv devs) :
    nameInv (addTriple devs t) := by
  have h1 : nameInv (if dictMem t.dn devs = true then devs
      else devs ++ [(t.dn, mkDevice t.dn)]) := by
    by_cases hmem : dictMem t.dn devs = true
    · rw [if_pos hmem]
      exact h
    · rw [if_neg hmem]
      intro p hp
      rcases List.mem_append.mp hp with hp | hp
      · exact h p hp
      · rw [List.mem_singleton] at hp
        rw [hp]
        rfl
  intro p hp
  simp only [addTriple, updateDev] at hp
  obtain ⟨q, hq, hpq⟩ := List.mem_map.mp hp
  have hqn := h1 q hq
  by_cases hk : q.1 = t.dn
  · rw [if_pos hk] at hpq
    rw [← hpq]
    show (setProp q.2 t.dp t.addr).name = q.1
    rw [setProp_name, hqn]
  · rw [if_neg hk] at hpq
    rw [← hpq]
    exact hqn

theorem nameInv_parse_line (devs : Devices) (l : Str) (h : nameInv devs) :
    nameInv (_parse_line devs l).1 := by
  unfold _parse_line
  cases hc : classifyLine l with
  | inl r => exact h
  | inr t => exact nameInv_addTriple devs t h

theorem foldl_delKey_eq_filter : ∀ (ks : List Str) (devs : Devices),
    ks.foldl delKey devs = devs.filter (fun p => decide (p.1 ∉ ks)) := by
  intro ks
  induction ks with
  | nil =>
    intro devs
    simp
  | cons k rest ih =>
    intro devs
    rw [List.foldl_cons, ih]
    unfold delKey
    rw [List.filter_filter]
    apply List.filter_congr
    intro p hp
    by_cases h1 : p.1 = k
    · simp [h1]
    · by_cases h2 : p.1 ∈ rest <;> simp [h1, h2]

theorem remove_invalid_fst (devs : Devices) :
    (remove_invalid_devices devs).1 =
      devs.filter (fun p => decide (p.1 ∉
        (devs.filter (fun p => !check_light p.2)).map (fun p => p.2.name))) := by
  unfold remove_invalid_devices
  simp only []
  rw [← List.foldl_map (fun inv : KNXLight => inv.name) delKey, foldl_delKey_eq_filter,
    List.map_map]
  rfl

theorem nameInv_remove_invalid (devs : Devices) (h : nameInv devs) :
    nameInv (remove_invalid_devices devs).1 := by
  intro p hp
  rw [remove_invalid_fst] at hp
  exact h p (List.mem_filter.mp hp).1

/-- C10: the empty mapping, line processing, and pruning all preserve the
invariant that every stored record holds its own key in its name field; this
is what makes the deletion by the stored name in remove_invalid_devices
well-defined. -/
theorem knx_C10 (devs : Devices) (l : Str) (h : nameInv devs) :
    nameInv ([] : Devices) ∧ nameInv (_parse_line devs l).1 ∧
      nameInv (remove_invalid_devices devs).1 :=
  ⟨fun p hp => absurd hp (List.not_mem_nil p),
   nameInv_parse_line devs l h, nameInv_remove_invalid devs h⟩

theorem knx_C10_witness :
    nameInv ([] : Devices) ∧
      nameInv (_parse_line [("a".toList, mkDevice ("a".toList))]
        ("1/2/3 Kitchen Light".toList)).1 ∧
      nameInv (remove_invalid_devices [("a".toList, mkDevice ("a".toList))]).1 :=
  knx_C10 [("a".toList, mkDevice ("a".toList))] ("1/2/3 Kitchen Light".toList)
    (by decide)

/-! ## Pruning (C3) -/

theorem keys_inj (devs : Devices) (hnd : keysNodup devs) (p q : Str × KNXLight)
    (hp : p ∈ devs) (hq : q ∈ devs) (hk : p.1 = q.1) : p = q := by
  induction devs with
  | nil => exact absurd hp (List.not_mem_nil p)
  | cons r rest ih =>
    have hnd2 : (rest.map (fun p => p.1)).Nodup := (List.nodup_cons.mp hnd).2
    have hrn : r.1 ∉ rest.map (fun p => p.1) := (List.nodup_cons.mp hnd).1
    rcases List.mem_cons.mp hp with hp1 | hp1
    · rcases List.mem_cons.mp hq with hq1 | hq1
      · rw [hp1, hq1]
      · exfalso
        apply hrn
        rw [← hp1, hk]
        exact List.mem_map.mpr ⟨q, hq1, rfl⟩
    · rcases List.mem_cons.mp hq with hq1 | hq1
      · exfalso
        apply hrn
        rw [← hq1, ← hk]
        exact List.mem_map.mpr ⟨p, hp1, rfl⟩
      · exact ih hnd2 hp1 hq1

theorem remove_invalid_fst_eq (devs : Devices) (hinv : nameInv devs)
    (hnd : keysNodup devs) :
    (remove_invalid_devices devs).1 = devs.filter (fun p => check_light p.2) := by
  rw [remove_invalid_fst]
  apply List.filter_congr
  intro p hp
  cases hc : check_light p.2 with
  | true =>
    apply decide_eq_true
    intro hmem
    obtain ⟨q, hq, hqe⟩ := List.mem_map.mp hmem
    have hqd := (List.mem_filter.mp hq).1
    have hqc := (List.mem_filter.mp hq).2
    have hqn : q.2.name = q.1 := hinv q hqd
    have hkey : q.1 = p.1 := by rw [← hqn, hqe]
    have hqp : q = p := keys_inj devs hnd q p hqd hp hkey
    rw [hqp, hc] at hqc
    simp at hqc
  | false =>
    have hmem : p.1 ∈ (devs.filter (fun p => !check_light p.2)).map
        (fun p => p.2.name) :=
      List.mem_map.mpr ⟨p, List.mem_filter.mpr ⟨hp, by rw [hc]; rfl⟩, hinv p hp⟩
    exact decide_eq_false (fun hno => hno hmem)

/-- C3: after remove_invalid_devices the mapping holds exactly the records
satisfying check_light (every failing record is removed), the returned list
is exactly the removed records with all their fields, and no pruned record
reaches the serialized record list. -/
theorem knx_C3 (devs : Devices) (hinv : nameInv devs) (hnd : keysNodup devs) :
    (remove_invalid_devices devs).1 = devs.filter (fun p => check_light p.2)
      ∧ (remove_invalid_devices devs).2 =
        (devs.filter (fun p => !check_light p.2)).map (fun p => p.2)
      ∧ (∀ pr ∈ (remove_invalid_devices devs).1, check_light pr.2 = true)
      ∧ (∀ d ∈ to_yaml_records (remove_invalid_devices devs).1,
          check_light d = true) := by
  have hfst := remove_invalid_fst_eq devs hinv hnd
  refine ⟨hfst, rfl, ?_, ?_⟩
  · intro pr hpr
    rw [hfst] at hpr
    exact (List.mem_filter.mp hpr).2
  · intro d hd
    unfold to_yaml_records at hd
    obtain ⟨n, hn, hl⟩ := List.mem_filterMap.mp hd
    have hm := lookup_mem _ n d hl
    rw [hfst] at hm
    exact (List.mem_filter.mp hm).2

theorem knx_C3_witness :
    (remove_invalid_devices
        [("a".toList, ⟨"a".toList, some "1/1/1".toList, some "1/1/2".toList, none, none⟩),
         ("b".toList, ⟨"b".toList, some "1/1/3".toList, none, none, none⟩)]).1 =
      List.filter (fun p => check_light p.2)
        [("a".toList, ⟨"a".toList, some "1/1/1".toList, some "1/1/2".toList, none, none⟩),
         ("b".toList, ⟨"b".toList, some "1/1/3".toList, none, none, none⟩)]
      ∧ (remove_invalid_devices
        [("a".toList, ⟨"a".toList, some "1/1/1".toList, some "1/1/2".toList, none, none⟩),
         ("b".toList, ⟨"b".toList, some "1/1/3".toList, none, none, none⟩)]).2 =
        List.map (fun p => p.2) (List.filter (fun p => !check_light p.2)
          [("a".toList, ⟨"a".toList, some "1/1/1".toList, some "1/1/2".toList, none, none⟩),
           ("b".toList, ⟨"b".toList, some "1/1/3".toList, none, none, none⟩)])
      ∧ (∀ pr ∈ (remove_invalid_devices
          [("a".toList, ⟨"a".toList, some "1/1/1".toList, some "1/1/2".toList, none, none⟩),
           ("b".toList, ⟨"b".toList, some "1/1/3".toList, none, none, none⟩)]).1,
          check_light pr.2 = true)
      ∧ (∀ d ∈ to_yaml_records (remove_invalid_devices
          [("a".toList, ⟨"a".toList, some "1/1/1".toList, some "1/1/2".toList, none, none⟩),
           ("b".toList, ⟨"b".toList, some "1/1/3".toList, none, none, none⟩)]).1,
          check_light d = true) :=
  knx_C3
    [("a".toList, ⟨"a".toList, some "1/1/1".toList, some "1/1/2".toList, none, none⟩),
     ("b".toList, ⟨"b".toList, some "1/1/3".toList, none, none, none⟩)]
    (by decide) (by decide)

/-! ## Serializer ordering (C8) -/

theorem strLe_cons_iff (x y : Char) (xs ys : Str) :
    strLe (x :: xs) (y :: ys) = true ↔ (x < y ∨ (x = y ∧ strLe xs ys = true)) := by
  show (if x < y then true else if y < x then false else strLe xs ys) = true ↔ _
  by_cases h1 : x < y
  · have hne : ¬x = y := fun he => absurd (he ▸ h1) (lt_irrefl y)
    simp [h1, hne]
  · by_cases h2 : y < x
    · have hne : ¬x = y := fun he => absurd (he ▸ h2) (lt_irrefl x)
      simp [h1, h2, hne]
    · have he : x = y := le_antisymm (not_lt.mp h2) (not_lt.mp h1)
      simp [h1, h2, he]

theorem strLt_cons_iff (x y : Char) (xs ys : Str) :
    strLt (x :: xs) (y :: ys) = true ↔ (x < y ∨ (x = y ∧ strLt xs ys = true)) := by
  show (if x < y then true else if y < x then false else strLt xs ys) = true ↔ _
  by_cases h1 : x < y
  · have hne : ¬x = y := fun he => absurd (he ▸ h1) (lt_irrefl y)
    simp [h1, hne]
  · by_cases h2 : y < x
    · have hne : ¬x = y := fun he => absurd (he ▸ h2) (lt_irrefl x)
      simp [h1, h2, hne]
    · have he : x = y := le_antisymm (not_lt.mp h2) (not_lt.mp h1)
      simp [h1, h2, he]

theorem strLe_total : ∀ a b : Str, strLe a b = true ∨ strLe b a = true := by
  intro a
  induction a with
  | nil => intro b; exact Or.inl rfl
  | cons x xs ih =>
    intro b
    cases b with
    | nil => exact Or.inr rfl
    | cons y ys =>
      rw [strLe_cons_iff, strLe_cons_iff]
      rcases lt_trichotomy x y with h | h | h
      · exact Or.inl (Or.inl h)
      · rcases ih ys with h2 | h2
        · exact Or.inl (Or.inr ⟨h, h2⟩)
        · exact Or.inr (Or.inr ⟨h.symm, h2⟩)
      · exact Or.inr (Or.inl h)

theorem strLe_trans : ∀ a b c : Str,
    strLe a b = true → strLe b c = true → strLe a c = true := by
  intro a
  induction a with
  | nil => intro b c h1 h2; rfl
  | cons x xs ih =>
    intro b c h1 h2
    cases b with
    | nil => exact absurd h1 (by simp [strLe])
    | cons y ys =>
      cases c with
      | nil => exact absurd h2 (by simp [strLe])
      | cons z zs =>
        rw [strLe_cons_iff] at h1 h2 ⊢
        rcases h1 with h1 | h1
        · rcases h2 with h2 | h2
          · exact Or.inl (lt_trans h1 h2)
          · exact Or.inl (h2.1 ▸ h1)
        · rcases h2 with h2 | h2
          · refine Or.inl ?_
            rw [h1.1]
            exact h2
          · exact Or.inr ⟨h1.1.trans h2.1, ih ys zs h1.2 h2.2⟩

theorem strLt_of_le_ne : ∀ a b : Str, strLe a b = true → a ≠ b → strLt a b = true := by
  intro a
  induction a with
  | nil =>
    intro b h hne
    cases b with
    | nil => exact absurd rfl hne
    | cons y ys => rfl
  | cons x xs ih =>
    intro b h hne
    cases b with
    | nil => exact absurd h (by simp [strLe])
    | cons y ys =>
      rw [strLe_cons_iff] at h
      rw [strLt_cons_iff]
      rcases h with h | ⟨he, h⟩
      · exact Or.inl h
      · subst he
        refine Or.inr ⟨rfl, ih ys h ?_⟩
        intro hxy
        exact hne (by rw [hxy])

instance : IsTotal Str strLeP := ⟨strLe_total⟩

instance : IsTrans Str strLeP := ⟨strLe_trans⟩

theorem sortedNames_sorted (devs : Devices) : List.Sorted strLeP (sortedNames devs) :=
  List.sorted_insertionSort strLeP _

theorem sortedNames_perm (devs : Devices) :
    (sortedNames devs).Perm (devs.map (fun p => p.1)) :=
  List.perm_insertionSort strLeP _

theorem to_yaml_records_names (devs : Devices) (hinv : nameInv devs) :
    (to_yaml_records devs).map KNXLight.name = sortedNames devs := by
  unfold to_yaml_records
  have key : ∀ ns : List Str, (∀ n ∈ ns, n ∈ devs.map (fun p => p.1)) →
      (ns.filterMap (fun n => lookupDev devs n)).map KNXLight.name = ns := by
    intro ns
    induction ns with
    | nil => intro _; rfl
    | cons n rest ih =>
      intro hmem
      have hn := lookup_isSome_of_mem_keys devs n (hmem n (List.mem_cons_self _ _))
      obtain ⟨d, hd⟩ := Option.isSome_iff_exists.mp hn
      have hdn : d.name = n := lookup_name devs hinv n d hd
      simp only [List.filterMap_cons, hd, List.map_cons, hdn]
      rw [ih (fun x hx => hmem x (List.mem_cons_of_mem _ hx))]
  exact key (sortedNames devs) (fun n hn => (sortedNames_perm devs).mem_iff.mp hn)

theorem pairwise_and_of (l : List Str) (R S : Str → Str → Prop)
    (hR : l.Pairwise R) (hS : l.Pairwise S) :
    l.Pairwise (fun a b => R a b ∧ S a b) := by
  induction l with
  | nil => exact List.Pairwise.nil
  | cons a rest ih =>
    rcases List.pairwise_cons.mp hR with ⟨hRa, hRrest⟩
    rcases List.pairwise_cons.mp hS with ⟨hSa, hSrest⟩
    exact List.pairwise_cons.mpr ⟨fun b hb => ⟨hRa b hb, hSa b hb⟩, ih hRrest hSrest⟩

theorem sorted_strict_of_nodup (l : List Str) (hs : List.Sorted strLeP l)
    (hn : l.Nodup) : List.Sorted strLtP l :=
  (pairwise_and_of l strLeP (fun a b => a ≠ b) hs hn).imp
    (fun hab => strLt_of_le_ne _ _ hab.1 hab.2)

/-- C8: for every device mapping (hence for any permutation of the input
lines producing it) the serialized record list is strictly ascending by
device name, each emitted record holds exactly the key/value pairs of its
present fields (absent ones are omitted, never null), and a supplied root
key nests the same document one level deeper. -/
theorem knx_C8 (devs : Devices) (ty r : Str) (hinv : nameInv devs)
    (hnd : keysNodup devs) :
    List.Sorted strLtP ((to_yaml_records devs).map KNXLight.name)
      ∧ (∀ d : KNXLight, ∀ k v : Str, ((k, v) ∈ emitDevice d) ↔
          ((k = "address".toList ∧ d.address = some v)
            ∨ (k = "brightness_address".toList ∧ d.brightness_address = some v)
            ∨ (k = "brightness_state_address".toList ∧
                d.brightness_state_address = some v)
            ∨ (k = "name".toList ∧ v = d.name)
            ∨ (k = "state_address".toList ∧ d.state_address = some v)))
      ∧ to_yaml devs ty none =
          YVal.obj [(ty, YVal.arr ((to_yaml_records devs).map
            (fun d0 => YVal.obj ((emitDevice d0).map (fun p => (p.1, YVal.str p.2))))))]
      ∧ to_yaml devs ty (some r) = YVal.obj [(r, to_yaml devs ty none)] := by
  refine ⟨?_, ?_, rfl, rfl⟩
  · rw [to_yaml_records_names devs hinv]
    exact sorted_strict_of_nodup _ (sortedNames_sorted devs)
      (((sortedNames_perm devs).nodup_iff).mpr hnd)
  · intro d k v
    obtain ⟨nm, a, sa, ba, bsa⟩ := d
    cases a <;> cases sa <;> cases ba <;> cases bsa <;>
      simp [emitDevice, optField, List.mem_append, Prod.ext_iff] <;> tauto

theorem knx_C8_witness :
    List.Sorted strLtP ((to_yaml_records
        [("b".toList, ⟨"b".toList, some "1/1/1".toList, some "1/1/2".toList, none, none⟩),
         ("a".toList, ⟨"a".toList, some "2/1/1".toList, some "2/1/2".toList, none, none⟩)]).map
        KNXLight.name)
      ∧ (∀ d : KNXLight, ∀ k v : Str, ((k, v) ∈ emitDevice d) ↔
          ((k = "address".toList ∧ d.address = some v)
            ∨ (k = "brightness_address".toList ∧ d.brightness_address = some v)
            ∨ (k = "brightness_state_address".toList ∧
                d.brightness_state_address = some v)
            ∨ (k = "name".toList ∧ v = d.name)
            ∨ (k = "state_address".toList ∧ d.state_address = some v)))
      ∧ to_yaml
          [("b".toList, ⟨"b".toList, some "1/1/1".toList, some "1/1/2".toList, none, none⟩),
           ("a".toList, ⟨"a".toList, some "2/1/1".toList, some "2/1/2".toList, none, none⟩)]
          ("light".toList) none =
          YVal.obj [("light".toList, YVal.arr ((to_yaml_records
            [("b".toList, ⟨"b".toList, some "1/1/1".toList, some "1/1/2".toList, none, none⟩),
             ("a".toList, ⟨"a".toList, some "2/1/1".toList, some "2/1/2".toList, none, none⟩)]).map
            (fun d0 => YVal.obj ((emitDevice d0).map (fun p => (p.1, YVal.str p.2))))))]
      ∧ to_yaml
          [("b".toList, ⟨"b".toList, some "1/1/1".toList, some "1/1/2".toList, none, none⟩),
           ("a".toList, ⟨"a".toList, some "2/1/1".toList, some "2/1/2".toList, none, none⟩)]
          ("light".toList) (some ("knx".toList)) =
          YVal.obj [("knx".toList, to_yaml
            [("b".toList, ⟨"b".toList, some "1/1/1".toList, some "1/1/2".toList, none, none⟩),
             ("a".toList, ⟨"a".toList, some "2/1/1".toList, some "2/1/2".toList, none, none⟩)]
            ("light".toList) none)] :=
  knx_C8
    [("b".toList, ⟨"b".toList, some "1/1/1".toList, some "1/1/2".toList, none, none⟩),
     ("a".toList, ⟨"a".toList, some "2/1/1".toList, some "2/1/2".toList, none, none⟩)]
    ("light".toList) ("knx".toList) (by decide) (by decide)

/-! ## The name derivation (C1) -/

theorem isPrefixOf_append_self : ∀ (p t : Str), p.isPrefixOf (p ++ t) = true := by
  intro p t
  induction p with
  | nil => cases t <;> rfl
  | cons a as ih =>
    show (a == a && as.isPrefixOf (as ++ t)) = true
    rw [ih]
    simp

theorem not_isPrefixOf_append_of_head_ne (a b : Char) (as bs t : Str) (h : ¬a = b) :
    (a :: as).isPrefixOf ((b :: bs) ++ t) = false := by
  show (a == b && as.isPrefixOf (bs ++ t)) = false
  simp [h]

theorem replaceAllFuel_eq : ∀ (f1 f2 : Nat) (pat new s : Str),
    s.length ≤ f1 → s.length ≤ f2 →
    replaceAllFuel pat new f1 s = replaceAllFuel pat new f2 s := by
  intro f1
  induction f1 with
  | zero =>
    intro f2 pat new s h1 h2
    have hs : s = [] := List.eq_nil_of_length_eq_zero (Nat.le_zero.mp h1)
    subst hs
    cases f2 <;> rfl
  | succ k ih =>
    intro f2 pat new s h1 h2
    cases s with
    | nil => cases f2 <;> rfl
    | cons c cs =>
      cases f2 with
      | zero => exact absurd h2 (by simp)
      | succ m =>
        show (if pat ≠ [] ∧ pat.isPrefixOf (c :: cs) then
            new ++ replaceAllFuel pat new k ((c :: cs).drop pat.length)
          else c :: replaceAllFuel pat new k cs) =
          (if pat ≠ [] ∧ pat.isPrefixOf (c :: cs) then
            new ++ replaceAllFuel pat new m ((c :: cs).drop pat.length)
          else c :: replaceAllFuel pat new m cs)
        by_cases hc : pat ≠ [] ∧ pat.isPrefixOf (c :: cs)
        · rw [if_pos hc, if_pos hc]
          have hplen : 1 ≤ pat.length := by
            cases hp : pat with
            | nil => exact absurd hp hc.1
            | cons x xs => simp
          have hlen1 : (c :: cs).length ≤ k + 1 := h1
          have hlen2 : (c :: cs).length ≤ m + 1 := h2
          have hdrop1 : ((c :: cs).drop pat.length).length ≤ k := by
            rw [List.length_drop]
            omega
          have hdrop2 : ((c :: cs).drop pat.length).length ≤ m := by
            rw [List.length_drop]
            omega
          rw [ih m pat new _ hdrop1 hdrop2]
        · rw [if_neg hc, if_neg hc]
          have hcs1 : cs.length ≤ k := by
            have : (c :: cs).length ≤ k + 1 := h1
            simpa using this
          have hcs2 : cs.length ≤ m := by
            have : (c :: cs).length ≤ m + 1 := h2
            simpa using this
          rw [ih m pat new cs hcs1 hcs2]

theorem replaceAllFuel_id_of_not_occurs : ∀ (f : Nat) (pat new s : Str),
    occursIn pat s = false → replaceAllFuel pat new f s = s := by
  intro f
  induction f with
  | zero => intro pat new s h; cases s <;> rfl
  | succ k ih =>
    intro pat new s h
    cases s with
    | nil => rfl
    | cons c cs =>
      have hpre : pat.isPrefixOf (c :: cs) = false := by
        cases hp : pat.isPrefixOf (c :: cs) with
        | false => rfl
        | true =>
          unfold occursIn at h
          rw [hp] at h
          simp at h
      have hrest : occursIn pat cs = false := by
        unfold occursIn at h
        rw [hpre] at h
        simpa using h
      show (if pat ≠ [] ∧ pat.isPrefixOf (c :: cs) then
          new ++ replaceAllFuel pat new k ((c :: cs).drop pat.length)
        else c :: replaceAllFuel pat new k cs) = c :: cs
      rw [if_neg (fun hc => Bool.false_ne_true (hpre ▸ hc.2))]
      rw [ih pat new cs hrest]

theorem replaceAll_id_of_not_occurs (pat new s : Str) (h : occursIn pat s = false) :
    replaceAll pat new s = s :=
  replaceAllFuel_id_of_not_occurs s.length pat new s h

theorem replaceAll_append_self (pat t : Str) (hne : pat ≠ []) :
    replaceAll pat [] (pat ++ t) = replaceAll pat [] t := by
  cases pat with
  | nil => exact absurd rfl hne
  | cons a as =>
    unfold replaceAll
    rw [List.cons_append]
    show (if (a :: as) ≠ [] ∧ (a :: as).isPrefixOf (a :: (as ++ t)) then
        [] ++ replaceAllFuel (a :: as) [] (as ++ t).length
          ((a :: (as ++ t)).drop (a :: as).length)
      else a :: replaceAllFuel (a :: as) [] (as ++ t).length (as ++ t)) =
      replaceAllFuel (a :: as) [] t.length t
    have hpre : (a :: as).isPrefixOf (a :: (as ++ t)) = true := by
      rw [← List.cons_append]
      exact isPrefixOf_append_self (a :: as) t
    rw [if_pos ⟨List.cons_ne_nil a as, hpre⟩, List.nil_append]
    have hdrop : (a :: (as ++ t)).drop (a :: as).length = t := by
      show (a :: (as ++ t)).drop (as.length + 1) = t
      rw [List.drop_succ_cons, List.drop_left]
    rw [hdrop]
    apply replaceAllFuel_eq
    · rw [List.length_append]
      omega
    · exact Nat.le_refl _

/-- The device-name derivation exactly as claim C1 words it: remove the
single matched role prefix from the front of the label, then trim,
lower-case, and replace spaces with underscores. -/
def claimFrontName (s : Str) : Str :=
  let pfx := if FEEDBACK_DIMVALUE.isPrefixOf s then FEEDBACK_DIMVALUE
    else if FEEDBACK_ONOFF.isPrefixOf s then FEEDBACK_ONOFF
    else if DIMVALUE.isPrefixOf s then DIMVALUE
    else ONOFF
  replaceAll [' '] ['_'] (toLowerStr (strip (s.drop pfx.length)))

/-- The device-name derivation as amended: every occurrence of the matched
non-empty prefix is removed from the label (the empty fallback removes
nothing), then strip, lower-case, strip, underscore. -/
def specDerivedName (s : Str) : Str :=
  let pfx := if FEEDBACK_DIMVALUE.isPrefixOf s then FEEDBACK_DIMVALUE
    else if FEEDBACK_ONOFF.isPrefixOf s then FEEDBACK_ONOFF
    else if DIMVALUE.isPrefixOf s then DIMVALUE
    else ONOFF
  let base := if pfx.isEmpty then s else strip (replaceAll pfx [] s)
  replaceAll [' '] ['_'] (strip (toLowerStr base))

/-- C1 counterexample: the code removes every occurrence of the matched role
prefix (Python str.replace), not only the leading one, so prefix text
occurring later in a label is not preserved, and two labels differing only
in their leading role prefix can produce different device names. -/
theorem knx_C1_counterexample :
    (parse_name ("feedback lamp feedback".toList)).1 ≠
        claimFrontName ("feedback lamp feedback".toList)
      ∧ (parse_name ("feedback lamp feedback".toList)).1 ≠
        (parse_name (" lamp feedback".toList)).1
      ∧ "feedback lamp feedback".toList = FEEDBACK_ONOFF ++ " lamp feedback".toList := by
  decide

theorem parse_name_fst (s : Str) : (parse_name s).1 = specDerivedName s := by
  have e1 : FEEDBACK_DIMVALUE.isEmpty = false := by decide
  have e2 : FEEDBACK_ONOFF.isEmpty = false := by decide
  have e3 : DIMVALUE.isEmpty = false := by decide
  have e4 : ONOFF.isEmpty = true := by decide
  cases ha : FEEDBACK_DIMVALUE.isPrefixOf s with
  | true => simp [parse_name, parseHelper, specDerivedName, ha, e1]
  | false =>
    cases hb : FEEDBACK_ONOFF.isPrefixOf s with
    | true => simp [parse_name, parseHelper, specDerivedName, ha, hb, e2]
    | false =>
      cases hc : DIMVALUE.isPrefixOf s with
      | true => simp [parse_name, parseHelper, specDerivedName, ha, hb, hc, e3]
      | false => simp [parse_name, parseHelper, specDerivedName, ha, hb, hc, e4]

/-- C1 (amended): the derived name removes every occurrence of the matched
role prefix when that prefix is non-empty (the empty fallback removes
nothing) before trimming, lower-casing and underscoring; two labels that
differ only in their leading non-empty role prefix still yield the same
device name provided the remaining text contains no further occurrence of
the tested prefixes. -/
theorem knx_C1_amended (s t : Str)
    (h1 : occursIn FEEDBACK_ONOFF t = false)
    (h2 : FEEDBACK_DIMVALUE.isPrefixOf (FEEDBACK_ONOFF ++ t) = false)
    (h3 : occursIn DIMVALUE t = false) :
    (parse_name s).1 = specDerivedName s
      ∧ (parse_name (FEEDBACK_ONOFF ++ t)).1 = (parse_name (DIMVALUE ++ t)).1 := by
  refine ⟨parse_name_fst s, ?_⟩
  have hbL : FEEDBACK_ONOFF.isPrefixOf (FEEDBACK_ONOFF ++ t) = true :=
    isPrefixOf_append_self FEEDBACK_ONOFF t
  have ef : FEEDBACK_DIMVALUE = 'f' :: "eedback dimvalue".toList := by decide
  have efo : FEEDBACK_ONOFF = 'f' :: "eedback".toList := by decide
  have ed : DIMVALUE = 'd' :: "imvalue".toList := by decide
  have haR : FEEDBACK_DIMVALUE.isPrefixOf (DIMVALUE ++ t) = false := by
    rw [ef, ed]
    exact not_isPrefixOf_append_of_head_ne 'f' 'd' _ _ t (by decide)
  have hbR : FEEDBACK_ONOFF.isPrefixOf (DIMVALUE ++ t) = false := by
    rw [efo, ed]
    exact not_isPrefixOf_append_of_head_ne 'f' 'd' _ _ t (by decide)
  have hcR : DIMVALUE.isPrefixOf (DIMVALUE ++ t) = true :=
    isPrefixOf_append_self DIMVALUE t
  have hrepL : replaceAll FEEDBACK_ONOFF [] (FEEDBACK_ONOFF ++ t) = t := by
    rw [replaceAll_append_self FEEDBACK_ONOFF t (by decide)]
    exact replaceAll_id_of_not_occurs _ _ _ h1
  have hrepR : replaceAll DIMVALUE [] (DIMVALUE ++ t) = t := by
    rw [replaceAll_append_self DIMVALUE t (by decide)]
    exact replaceAll_id_of_not_occurs _ _ _ h3
  simp [parse_name, parseHelper, h2, hbL, haR, hbR, hcR, hrepL, hrepR]

theorem knx_C1_amended_witness :
    (parse_name ("dimvalue Bed Room".toList)).1 =
        specDerivedName ("dimvalue Bed Room".toList)
      ∧ (parse_name (FEEDBACK_ONOFF ++ " Kitchen".toList)).1 =
        (parse_name (DIMVALUE ++ " Kitchen".toList)).1 :=
  knx_C1_amended ("dimvalue Bed Room".toList) (" Kitchen".toList)
    (by decide) (by decide) (by decide)
